import Mathlib

/-!
Verification of the Monty MCTS core against its specification.

Shallow embedding conventions:
* Machine integers are modelled as `Nat` (unsigned) or `Int` (signed), with
  explicit wrapping (`% 2^w`) at the operations where the Rust code can
  overflow; release-mode (wrapping) semantics are used.
* `f32`/`f64` arithmetic is modelled exactly over `ℚ`; the lossy
  float-to-integer casts (Rust `as u16` / `as u32`, truncation toward zero
  with saturation) are modelled explicitly.
* Atomics accessed with relaxed ordering are modelled as plain state fields;
  each operation is a state transition, which matches the sequential
  specification of the claims.
-/

namespace Monty

/-- Fixed-point scale for the q and sq_q fields: u32 maximum, 2^32 - 1. -/
def u32MAX : ℕ := 4294967295

/-- Fixed-point scale for policy and hash-table q fields: u16 maximum. -/
def u16MAX : ℕ := 65535

/-- Rust release-mode i32 wrapping: reduce an integer into [-2^31, 2^31). -/
def wrap_i32 (x : ℤ) : ℤ := (x + 2 ^ 31) % 2 ^ 32 - 2 ^ 31

/-- Rust cast of a (finite, exactly modelled) f64 value to u32:
truncation toward zero, saturating at 0 and at u32::MAX. -/
def rust_f64_as_u32 (x : ℚ) : ℕ :=
  if x ≤ 0 then 0 else min (Int.toNat ⌊x⌋) u32MAX

/-- Rust cast of a (finite, exactly modelled) f32 value to u16:
truncation toward zero, saturating at 0 and at u16::MAX. -/
def rust_f32_as_u16 (x : ℚ) : ℕ :=
  if x ≤ 0 then 0 else min (Int.toNat ⌊x⌋) u16MAX

/-- NodePtr from src/src/tree/node.rs: a raw u32 tagged index. -/
structure NodePtr where
  inner : ℕ
deriving DecidableEq

/-- The sentinel, u32::MAX (node.rs line 15). -/
def NodePtr.NULL : NodePtr := ⟨4294967295⟩

/-- node.rs: self == Self::NULL. -/
def NodePtr.is_null (p : NodePtr) : Bool := p = NodePtr.NULL

/-- node.rs: Self((u32::from(half) << 31) | idx); idx is already a u32. -/
def NodePtr.new (half : Bool) (idx : ℕ) : NodePtr :=
  ⟨((if half then 1 else 0) <<< 31) ||| idx⟩

/-- node.rs: self.0 & (1 << 31) > 0. -/
def NodePtr.half (p : NodePtr) : Bool := decide (0 < p.inner &&& (1 <<< 31))

/-- node.rs: (self.0 & 0x7FFFFFFF) as usize. -/
def NodePtr.idx (p : NodePtr) : ℕ := p.inner &&& 0x7FFFFFFF

/-- Node from src/src/tree/node.rs, with every atomic field modelled by its
stored raw value: mov/policy/state/threads are u16, num_actions is u8,
visits is an i32, q/sq_q/gini_impurity are u32, and actions holds the raw
u32 of a NodePtr (the RwLock only guards against concurrent access). -/
structure Node where
  actions : ℕ
  num_actions : ℕ
  state : ℕ
  threads : ℕ
  mov : ℕ
  policy : ℕ
  visits : ℤ
  q : ℕ
  sq_q : ℕ
  gini_impurity : ℕ
deriving DecidableEq

/-- node.rs q64(): f64::from(self.q.load()) / f64::from(u32::MAX). -/
def Node.q64 (n : Node) : ℚ := (n.q : ℚ) / u32MAX

/-- node.rs sq_q(): f64::from(self.sq_q.load()) / f64::from(u32::MAX). -/
def Node.sq_q64 (n : Node) : ℚ := (n.sq_q : ℚ) / u32MAX

/-- The u32 fixed-point encoding over [0,1] used for q and sq_q:
(x * f64::from(u32::MAX)) as u32. -/
def encode_q (x : ℚ) : ℕ := rust_f64_as_u32 (x * u32MAX)

/-- node.rs update(result): fetch_add(1) on visits returns the old count v;
the new mean (q64*v + r)/(v+1) and squared mean (sq_q*v + r^2)/(v+1) are
stored in the u32 encoding; the new mean is returned (as f32). -/
def Node.update (n : Node) (result : ℚ) : Node × ℚ :=
  let r := result
  let v : ℚ := (n.visits : ℚ)
  let q := (n.q64 * v + r) / (v + 1)
  let sq := (n.sq_q64 * v + r ^ 2) / (v + 1)
  ({ n with visits := wrap_i32 (n.visits + 1)
            q := encode_q q
            sq_q := encode_q sq },
   q)

/-- node.rs copy_from(other): stores other's threads, mov, policy, state,
gini_impurity, visits, q and sq_q into self; actions and num_actions are
not touched. -/
def Node.copy_from (dst src : Node) : Node :=
  { dst with
      threads := src.threads
      mov := src.mov
      policy := src.policy
      state := src.state
      gini_impurity := src.gini_impurity
      visits := src.visits
      q := src.q
      sq_q := src.sq_q }

/-- Outcome of TreeHalf::push_new (src/src/tree/half.rs). `oob` records
that the call indexes self.nodes out of bounds (a Rust panic); `ptr`
records the returned pointer together with the index of the slot that was
reset via Node's reset routine before the pointer was returned. -/
inductive PushResult where
  | null : PushResult
  | ptr : NodePtr → ℕ → PushResult
  | oob : PushResult
deriving DecidableEq

/-- TreeHalf from src/src/tree/half.rs: a fixed-capacity arena
(capacity = self.nodes.len()), a bump counter used (AtomicUsize) and the
immutable half identity bit. The node contents are not needed by the
claims about push_new, which only concern the returned pointer, the slot
index that is reset, and bounds safety. -/
structure TreeHalf where
  capacity : ℕ
  used : ℕ
  halfId : Bool
deriving DecidableEq

/-- half.rs push_new: idx = used.fetch_add(1) (returns the old value);
if idx == nodes.len() return NULL; otherwise self.nodes[idx] is accessed,
which for idx > nodes.len() is an out-of-bounds panic; in bounds, the slot
is reset and NodePtr::new(half, idx as u32) is returned. -/
def TreeHalf.push_new (t : TreeHalf) : TreeHalf × PushResult :=
  let idx := t.used
  let t' : TreeHalf := { t with used := t.used + 1 }
  if idx = t.capacity then (t', PushResult.null)
  else if idx < t.capacity then
    (t', PushResult.ptr (NodePtr.new t.halfId (idx % 2 ^ 32)) idx)
  else (t', PushResult.oob)

/-- HashEntry from src/src/tree/hash.rs: a 16-bit signature and 16-bit
fixed-point q, packed in one atomic u32. -/
structure HashEntry where
  hash : ℕ
  q : ℕ
deriving DecidableEq

/-- hash.rs HashEntry::q(): f32::from(self.q) / f32::from(u16::MAX). -/
def HashEntry.qVal (e : HashEntry) : ℚ := (e.q : ℚ) / u16MAX

/-- HashTable from src/src/tree/hash.rs: a vector of atomic entries,
modelled as its length plus the entry at each index. -/
structure HashTable where
  size : ℕ
  table : ℕ → HashEntry

/-- hash.rs HashTable::new zero-initialises every slot. -/
def HashTable.empty (size : ℕ) : HashTable := ⟨size, fun _ => ⟨0, 0⟩⟩

/-- hash.rs key(hash): (hash >> 48) as u16; hash is a u64. -/
def HashTable.key (hash : ℕ) : ℕ := (hash >>> 48) % 2 ^ 16

/-- hash.rs fetch(hash): the entry at index hash % table.len(). -/
def HashTable.fetch (t : HashTable) (hash : ℕ) : HashEntry :=
  t.table (hash % t.size)

/-- hash.rs get(hash): Some(entry) iff the stored signature matches
key(hash), else None. -/
def HashTable.get (t : HashTable) (hash : ℕ) : Option HashEntry :=
  let entry := t.fetch hash
  if entry.hash = HashTable.key hash then some entry else none

/-- hash.rs push(hash, q): unconditionally store the entry
(key(hash), (q * f32::from(u16::MAX)) as u16) at index hash % table.len(). -/
def HashTable.push (t : HashTable) (hash : ℕ) (q : ℚ) : HashTable :=
  let idx := hash % t.size
  let entry : HashEntry := ⟨HashTable.key hash, rust_f32_as_u16 (q * u16MAX)⟩
  ⟨t.size, fun i => if i = idx then entry else t.table i⟩

/-- src/src/mcts/corrhist.rs: CORRHIST_SIZE = 1 << 16. -/
def CORRHIST_SIZE : ℕ := 65536

/-- CorrHistEntry from corrhist.rs: two f32 accumulators packed in one
atomic u64, modelled exactly over ℚ. -/
structure CorrHistEntry where
  delta_sum : ℚ
  weight_sum : ℚ
deriving DecidableEq

/-- CorrHistTable from corrhist.rs: a vector of CORRHIST_SIZE atomic
64-bit slots, zero-initialised by new(). -/
structure CorrHistTable where
  table : ℕ → CorrHistEntry

/-- corrhist.rs CorrHistTable::new(threads): all slots zeroed. -/
def CorrHistTable.new : CorrHistTable := ⟨fun _ => ⟨0, 0⟩⟩

/-- corrhist.rs get_or_create(ch_hash): load slot ch_hash % table.len()
and view it as the (delta_sum, weight_sum) pair. -/
def CorrHistTable.get_or_create (t : CorrHistTable) (ch_hash : ℕ) : CorrHistEntry :=
  t.table (ch_hash % CORRHIST_SIZE)

/-- corrhist.rs update(ch_hash, delta, weight): the CAS loop reloads the
old 64-bit word, adds delta and weight to the two halves of the pair, and
retries until the CAS succeeds; as a state transition this replaces the
slot's pair by (delta_sum + delta, weight_sum + weight) in one step, so
the pair is always updated together. -/
def CorrHistTable.update (t : CorrHistTable) (ch_hash : ℕ) (delta weight : ℚ) :
    CorrHistTable :=
  let idx := ch_hash % CORRHIST_SIZE
  let old := t.table idx
  ⟨fun i => if i = idx then ⟨old.delta_sum + delta, old.weight_sum + weight⟩
            else t.table i⟩

/-- A sequence of update calls, all on the same key, applied in order. -/
def CorrHistTable.applyUpdates (t : CorrHistTable) (ch_hash : ℕ) :
    List (ℚ × ℚ) → CorrHistTable
  | [] => t
  | dw :: rest => (t.update ch_hash dw.1 dw.2).applyUpdates ch_hash rest

/-- src/src/mcts/helpers.rs get_action_value(action, fpu): the child's q
if it has been visited, else the first-play urgency. The Edge accessors
visits() and q() are passed as the values they return. -/
def get_action_value (visits : ℕ) (q fpu : ℚ) : ℚ :=
  if visits = 0 then fpu else q

/-- Modelled from the spec: the searcher's PUCT selection score
(spec section 4.6; the selection loop itself is not under src/):
action_value(child, fpu) + cpuct * explore_scale * child.policy
/ (1 + child.visits), with get_action_value embedded from helpers.rs. -/
def puct (visits : ℕ) (q fpu cpuct explore_scale policy : ℚ) : ℚ :=
  get_action_value visits q fpu + cpuct * explore_scale * policy / (1 + visits)

/-- src/src/mcts/helpers.rs get_time, specialized to the branch taken when
movestogo = Some(m) (tm_mode = false). u64 arithmetic is wrapping
(release semantics). mtg = m.min(30).max(1). time_left is computed before
the branch but not used on this path; it is reproduced here (wrapping add,
mul and sub on u64, then max 1) for faithfulness. The increment-mode
branch (tm_mode = true) uses f64 logarithms and powers and is not needed
by the claims. tm_max_time is the value of params.tm_max_time() as u64
(the accessor's definition is not under src/). ply is unused on this
path. -/
def get_time_movestogo (time : ℕ) (increment : Option ℕ) (_ply : ℕ) (m : ℕ)
    (tm_max_time : ℕ) : ℕ :=
  let inc := increment.getD 0
  let mtg := max (min m 30) 1
  let tl_add := (time + inc * (mtg - 1) % 2 ^ 64) % 2 ^ 64
  let tl_sub := 10 * (2 + mtg) % 2 ^ 64
  let _time_left := max ((tl_add + (2 ^ 64 - tl_sub)) % 2 ^ 64) 1
  let max_time := time / mtg
  min max_time (time * tm_max_time % 2 ^ 64 / 1000)

/-- src/src/mcts/evaluator.rs evaluate_value: if EVALUATOR_HANDLES has
been initialised the job is queued and the reply awaited, with
rx.recv().unwrap_or_else falling back to the inline evaluation when the
reply channel is disconnected; otherwise the evaluation is inline.
recv_reply models the outcome of rx.recv() (none = channel disconnected);
inline_eval is the value of state.get_value_wdl(value, params) (the
ChessState method is not under src/ and is treated as an opaque value). -/
def evaluate_value (pool_initialised : Bool) (recv_reply : Option ℚ)
    (inline_eval : ℚ) : ℚ :=
  if pool_initialised then
    match recv_reply with
    | some v => v
    | none => inline_eval
  else inline_eval

/-! ## Theorems -/

lemma shiftLeft_31_eq (b : Bool) :
    ((if b then 1 else 0) : ℕ) <<< 31 = (if b then 2 ^ 31 else 0) := by
  cases b <;> simp [Nat.shiftLeft_eq]

lemma NodePtr.half_new (b : Bool) (i : ℕ) (h : i < 2 ^ 31) :
    (NodePtr.new b i).half = b := by
  have hi : i.testBit 31 = false := Nat.testBit_eq_false_of_lt h
  have hmask : (1 : ℕ) <<< 31 = 2 ^ 31 := by simp [Nat.shiftLeft_eq]
  have hbit : ((((if b then 1 else 0) : ℕ) <<< 31) ||| i).testBit 31 = b := by
    rw [Nat.testBit_lor, Nat.testBit_shiftLeft, hi]
    cases b <;> simp
  unfold NodePtr.new NodePtr.half
  rw [hmask, Nat.and_two_pow, hbit]
  cases b <;> norm_num

lemma NodePtr.idx_new (b : Bool) (i : ℕ) (h : i < 2 ^ 31) :
    (NodePtr.new b i).idx = i := by
  unfold NodePtr.new NodePtr.idx
  have hmask : (0x7FFFFFFF : ℕ) = 2 ^ 31 - 1 := by norm_num
  rw [hmask, Nat.and_pow_two_sub_one_eq_mod]
  apply Nat.eq_of_testBit_eq
  intro k
  rw [Nat.testBit_mod_two_pow, Nat.testBit_lor, Nat.testBit_shiftLeft]
  by_cases hk : k < 31
  · have hk' : ¬(k ≥ 31) := by omega
    simp [hk, hk']
  · have hik : i.testBit k = false :=
      Nat.testBit_eq_false_of_lt
        (lt_of_lt_of_le h (Nat.pow_le_pow_right (by norm_num) (by omega)))
    simp [hk, hik]

lemma NodePtr.new_true_max_eq_NULL :
    NodePtr.new true (2 ^ 31 - 1) = NodePtr.NULL := by
  decide

lemma NodePtr.is_null_new_iff (b : Bool) (i : ℕ) (h : i < 2 ^ 31) :
    (NodePtr.new b i).is_null = true ↔ (b = true ∧ i = 2 ^ 31 - 1) := by
  constructor
  · intro hnull
    have heq : NodePtr.new b i = NodePtr.NULL := by
      simpa [NodePtr.is_null] using hnull
    have hhalf : b = NodePtr.NULL.half := by
      rw [← NodePtr.half_new b i h, heq]
    have hidx : i = NodePtr.NULL.idx := by
      rw [← NodePtr.idx_new b i h, heq]
    refine ⟨?_, ?_⟩
    · rw [hhalf]; decide
    · rw [hidx]; decide
  · rintro ⟨hb, hi⟩
    subst hb; subst hi
    rw [NodePtr.new_true_max_eq_NULL]
    decide

/-- C10 (amended): for every half bit b and index i < 2^31, NodePtr::new
stores a value whose half() is b and whose idx() is i; it is distinct from
the sentinel NULL except for the single pair (true, 2^31 - 1), whose
encoding coincides with NULL. -/
theorem nodeptr_encoding (b : Bool) (i : ℕ) (h : i < 2 ^ 31) :
    (NodePtr.new b i).half = b ∧ (NodePtr.new b i).idx = i ∧
      ((NodePtr.new b i).is_null = true ↔ (b = true ∧ i = 2 ^ 31 - 1)) :=
  ⟨NodePtr.half_new b i h, NodePtr.idx_new b i h, NodePtr.is_null_new_iff b i h⟩

/-- C10 witness: the amended statement evaluated at b = false, i = 5. -/
theorem nodeptr_encoding_witness :
    (NodePtr.new false 5).half = false ∧ (NodePtr.new false 5).idx = 5 ∧
      ((NodePtr.new false 5).is_null = true ↔ (false = true ∧ 5 = 2 ^ 31 - 1)) :=
  nodeptr_encoding false 5 (by norm_num)

/-- C10 counterexample: the valid tagged index (true, 2^31 - 1) is NOT
distinct from the sentinel: NodePtr::new(true, 0x7FFFFFFF) equals NULL and
is_null() returns true for it, refuting the claim as stated. -/
theorem nodeptr_null_collision :
    (2 ^ 31 - 1 : ℕ) < 2 ^ 31 ∧
      NodePtr.new true (2 ^ 31 - 1) = NodePtr.NULL ∧
      (NodePtr.new true (2 ^ 31 - 1)).is_null = true := by
  refine ⟨by norm_num, NodePtr.new_true_max_eq_NULL, ?_⟩
  rw [NodePtr.is_null, NodePtr.new_true_max_eq_NULL]
  decide

/-- C8: copy_from copies the eight statistic fields (visits, q, sq_q,
policy, mov, state, threads, gini_impurity) bit-identically from src and
leaves dst's actions pointer and num_actions unchanged. -/
theorem node_copy_from_frame (dst src : Node) :
    (dst.copy_from src).visits = src.visits ∧
    (dst.copy_from src).q = src.q ∧
    (dst.copy_from src).sq_q = src.sq_q ∧
    (dst.copy_from src).policy = src.policy ∧
    (dst.copy_from src).mov = src.mov ∧
    (dst.copy_from src).state = src.state ∧
    (dst.copy_from src).threads = src.threads ∧
    (dst.copy_from src).gini_impurity = src.gini_impurity ∧
    (dst.copy_from src).actions = dst.actions ∧
    (dst.copy_from src).num_actions = dst.num_actions :=
  ⟨rfl, rfl, rfl, rfl, rfl, rfl, rfl, rfl, rfl, rfl⟩

/-- C9: evaluate_value returns the inline evaluation both when no
evaluator pool has been initialised and when the reply channel of a queued
request is disconnected (recv returns an error); the error branch degrades
to the inline result rather than failing. -/
theorem evaluate_value_fallback (recv_reply : Option ℚ) (inline_eval : ℚ) :
    evaluate_value false recv_reply inline_eval = inline_eval ∧
    evaluate_value true none inline_eval = inline_eval :=
  ⟨rfl, rfl⟩

lemma corrhist_applyUpdates_get (t : CorrHistTable) (k : ℕ)
    (L : List (ℚ × ℚ)) :
    (t.applyUpdates k L).get_or_create k =
      ⟨(t.get_or_create k).delta_sum + (L.map Prod.fst).sum,
       (t.get_or_create k).weight_sum + (L.map Prod.snd).sum⟩ := by
  induction L generalizing t with
  | nil => simp [CorrHistTable.applyUpdates]
  | cons dw rest ih =>
    rw [CorrHistTable.applyUpdates, ih]
    simp only [CorrHistTable.get_or_create, CorrHistTable.update,
      List.map_cons, List.sum_cons, if_pos]
    simp [add_assoc]

/-- C5: starting from a zeroed table, after a sequence of update calls on
one key (applied in order), get_or_create on that key returns exactly the
accumulated sums of the deltas and of the weights; each update replaces
the whole (delta_sum, weight_sum) pair in a single step, modelling the
64-bit CAS. -/
theorem corrhist_accumulation (k : ℕ) (L : List (ℚ × ℚ)) :
    (CorrHistTable.new.applyUpdates k L).get_or_create k =
      ⟨(L.map Prod.fst).sum, (L.map Prod.snd).sum⟩ := by
  rw [corrhist_applyUpdates_get]
  simp [CorrHistTable.new, CorrHistTable.get_or_create]

/-- C1 (amended): Node::update(result) fetches the old visit count v,
stores the new mean (q * v + r) / (v + 1) and new squared mean
(sq_q * v + r^2) / (v + 1) in the u32 fixed-point encoding over [0,1],
leaves visits equal to v + 1, and returns the new mean — for every node
whose visit count v satisfies 0 <= v and v + 1 < 2^31; at v = 2^31 - 1 the
i32 fetch_add wraps (see the counterexample). -/
theorem node_update_spec (n : Node) (r : ℚ) (h0 : 0 ≤ n.visits)
    (h1 : n.visits + 1 < 2 ^ 31) :
    (n.update r).1.visits = n.visits + 1 ∧
    (n.update r).1.q =
      encode_q ((n.q64 * (n.visits : ℚ) + r) / ((n.visits : ℚ) + 1)) ∧
    (n.update r).1.sq_q =
      encode_q ((n.sq_q64 * (n.visits : ℚ) + r ^ 2) / ((n.visits : ℚ) + 1)) ∧
    (n.update r).2 = (n.q64 * (n.visits : ℚ) + r) / ((n.visits : ℚ) + 1) := by
  refine ⟨?_, rfl, rfl, rfl⟩
  show wrap_i32 (n.visits + 1) = n.visits + 1
  unfold wrap_i32
  omega

/-- A concrete node used to witness C1: 3 visits, q encoding 1/2. -/
def c1node : Node := ⟨0, 0, 0, 0, 0, 0, 3, 2147483647, 1073741823, 0⟩

/-- C1 witness: the statement of node_update_spec at the concrete node
c1node with result 1. -/
theorem node_update_spec_witness :
    (c1node.update 1).1.visits = c1node.visits + 1 ∧
    (c1node.update 1).1.q =
      encode_q ((c1node.q64 * (c1node.visits : ℚ) + 1) / ((c1node.visits : ℚ) + 1)) ∧
    (c1node.update 1).1.sq_q =
      encode_q ((c1node.sq_q64 * (c1node.visits : ℚ) + 1 ^ 2) / ((c1node.visits : ℚ) + 1)) ∧
    (c1node.update 1).2 = (c1node.q64 * (c1node.visits : ℚ) + 1) / ((c1node.visits : ℚ) + 1) :=
  node_update_spec c1node 1 (by decide) (by decide)

/-- A node at the i32 visit-count maximum, used by the C1 counterexample. -/
def c1wrapnode : Node := ⟨0, 0, 0, 0, 0, 0, 2147483647, 0, 0, 0⟩

/-- C1 counterexample: for a node whose current visit count is
v = 2^31 - 1 = 2147483647 (the i32 maximum), update leaves visits equal to
the wrapped value -2^31, not v + 1, refuting the claim as stated for every
node. -/
theorem node_update_visits_wrap :
    (c1wrapnode.update 0).1.visits = -2147483648 ∧
      c1wrapnode.visits + 1 ≠ -2147483648 := by
  constructor
  · show wrap_i32 (2147483647 + 1) = -2147483648
    unfold wrap_i32
    decide
  · decide

/-- C2 (amended): push_new increments used in every case; the fetched
index idx being EQUAL to the capacity returns NULL; idx < capacity resets
slot idx (in bounds) and returns NodePtr::new(half, idx as u32), whose
half bit and index decode correctly whenever idx < 2^31; but idx > capacity
(reachable because the check is equality, not >=) accesses nodes[idx] out
of bounds instead of returning NULL. -/
theorem tree_half_push_new_spec (t : TreeHalf) :
    (t.push_new.1.used = t.used + 1) ∧
    (t.used = t.capacity → t.push_new.2 = PushResult.null) ∧
    (t.used < t.capacity →
      t.push_new.2 = PushResult.ptr (NodePtr.new t.halfId (t.used % 2 ^ 32)) t.used) ∧
    (t.used < t.capacity → t.used < 2 ^ 31 →
      (NodePtr.new t.halfId (t.used % 2 ^ 32)).half = t.halfId ∧
      (NodePtr.new t.halfId (t.used % 2 ^ 32)).idx = t.used) ∧
    (t.used > t.capacity → t.push_new.2 = PushResult.oob) := by
  have hmod : ∀ u : ℕ, u < 2 ^ 31 → u % 2 ^ 32 = u := by
    intro u hu
    exact Nat.mod_eq_of_lt (by omega)
  refine ⟨?_, fun h => ?_, fun h => ?_, fun h h31 => ?_, fun h => ?_⟩
  · unfold TreeHalf.push_new
    dsimp only
    split
    · rfl
    · split <;> rfl
  · simp [TreeHalf.push_new, h]
  · simp [TreeHalf.push_new, Nat.ne_of_lt h, h]
  · rw [hmod t.used h31]
    exact ⟨NodePtr.half_new t.halfId t.used h31, NodePtr.idx_new t.halfId t.used h31⟩
  · have hne : t.used ≠ t.capacity := Nat.ne_of_gt h
    have hnlt : ¬(t.used < t.capacity) := by omega
    simp [TreeHalf.push_new, hne, hnlt]

/-- C2 witness: the statement of tree_half_push_new_spec at the concrete
half with capacity 4, used 2, half bit true. -/
theorem tree_half_push_new_spec_witness :
    ((⟨4, 2, true⟩ : TreeHalf).push_new.1.used = 2 + 1) ∧
    ((2 : ℕ) = 4 → (⟨4, 2, true⟩ : TreeHalf).push_new.2 = PushResult.null) ∧
    ((2 : ℕ) < 4 →
      (⟨4, 2, true⟩ : TreeHalf).push_new.2 =
        PushResult.ptr (NodePtr.new true (2 % 2 ^ 32)) 2) ∧
    ((2 : ℕ) < 4 → (2 : ℕ) < 2 ^ 31 →
      (NodePtr.new true (2 % 2 ^ 32)).half = true ∧
      (NodePtr.new true (2 % 2 ^ 32)).idx = 2) ∧
    ((2 : ℕ) > 4 → (⟨4, 2, true⟩ : TreeHalf).push_new.2 = PushResult.oob) :=
  tree_half_push_new_spec ⟨4, 2, true⟩

/-- C2 counterexample: with capacity 0 and used 1 (the state right after
the call that returned NULL), the fetched index 1 exceeds the capacity,
and push_new indexes the node vector out of bounds (a panic) instead of
returning NULL, refuting the claim as stated for fetched index >= C. -/
theorem tree_half_push_new_oob :
    (0 : ℕ) < 1 ∧
      (⟨0, 1, false⟩ : TreeHalf).push_new.2 = PushResult.oob ∧
      (⟨0, 1, false⟩ : TreeHalf).push_new.2 ≠ PushResult.null := by
  refine ⟨by norm_num, by decide, by decide⟩

/-- C6 counterexample: with fpu = 0, q = 1, cpuct = explore_scale =
policy = 1, increasing the child's visits from 0 to 1 INCREASES the
selection score (the action value switches from fpu to q), refuting
monotonicity for the pair n = 0 < n' = 1. -/
theorem puct_not_antitone_at_zero :
    puct 0 1 0 1 1 1 < puct 1 1 0 1 1 1 := by
  norm_num [puct, get_action_value]

/-- C6 (amended): holding the child's q, its policy prior, fpu, cpuct and
explore_scale fixed, and with cpuct * explore_scale * policy positive, the
selection score strictly decreases as visits increase over pairs
n' > n >= 1 (both visited); for n = 0 the action value switches from fpu
to q and the score need not decrease. -/
theorem puct_strict_antitone (n n' : ℕ) (q fpu c e p : ℚ) (h1 : 1 ≤ n)
    (h2 : n < n') (hpos : 0 < c * e * p) :
    puct n' q fpu c e p < puct n q fpu c e p := by
  unfold puct get_action_value
  rw [if_neg (by omega : ¬ n = 0), if_neg (by omega : ¬ n' = 0)]
  have hn : (0 : ℚ) < 1 + (n : ℚ) := by positivity
  have hnn : (1 : ℚ) + (n : ℚ) < 1 + (n' : ℚ) := by
    have : (n : ℚ) < (n' : ℚ) := by exact_mod_cast h2
    linarith
  have := div_lt_div_of_pos_left hpos hn hnn
  linarith

/-- C6 witness: the amended statement at n = 1, n' = 2, q = 1/2, fpu = 0,
cpuct = explore_scale = policy = 1. -/
theorem puct_strict_antitone_witness :
    puct 2 (1/2) 0 1 1 1 < puct 1 (1/2) 0 1 1 1 :=
  puct_strict_antitone 1 2 (1/2) 0 1 1 1 (le_refl 1) (by norm_num) (by norm_num)

/-- C7 counterexample: at time = 2^60 and tm_max_time = 1000 the u64
product time * tm_max_time wraps modulo 2^64, so the returned budget is
(2^63) / 1000 rather than the claimed min(time / 1, time * 1000 / 1000)
= 2^60. -/
theorem get_time_movestogo_overflow :
    get_time_movestogo (2 ^ 60) none 0 1 1000 = 9223372036854775 ∧
      min ((2 ^ 60 : ℕ) / max (min 1 30) 1) (2 ^ 60 * 1000 / 1000) = 2 ^ 60 ∧
      (9223372036854775 : ℕ) ≠ 2 ^ 60 := by
  refine ⟨by decide, by decide, by decide⟩

/-- C7 (amended): with movestogo = Some m, get_time returns
min(time / clamp(m, 1, 30), time * tm_max_time / 1000) for every time,
increment and ply, provided the u64 product time * tm_max_time does not
overflow (it wraps modulo 2^64 otherwise). -/
theorem get_time_movestogo_spec (time : ℕ) (increment : Option ℕ)
    (ply m tm_max_time : ℕ) (h : time * tm_max_time < 2 ^ 64) :
    get_time_movestogo time increment ply m tm_max_time =
      min (time / max (min m 30) 1) (time * tm_max_time / 1000) := by
  unfold get_time_movestogo
  rw [Nat.mod_eq_of_lt h]

/-- C7 witness: 60 seconds on the clock, 40 moves to go (clamped to 30),
tm_max_time = 850. -/
theorem get_time_movestogo_spec_witness :
    get_time_movestogo 60000 none 0 40 850 =
      min (60000 / max (min 40 30) 1) (60000 * 850 / 1000) :=
  get_time_movestogo_spec 60000 none 0 40 850 (by norm_num)

/-- C3 (amended): for every table of non-zero size, hash and q in [0,1],
push(h, q) followed by get(h) returns Some of the stored entry, whose
decoded q differs from the pushed q by strictly less than 1/65535 (the
truncation (q * 65535) as u16 loses at most one 1/65535-step; the claimed
bound 2^-16 = 1/65536 is slightly too tight). -/
theorem hashtable_round_trip (t : HashTable) (hsh : ℕ) (q : ℚ)
    (_hsize : 0 < t.size) (hq0 : 0 ≤ q) (hq1 : q ≤ 1) :
    (t.push hsh q).get hsh =
      some ⟨HashTable.key hsh, rust_f32_as_u16 (q * u16MAX)⟩ ∧
    |HashEntry.qVal ⟨HashTable.key hsh, rust_f32_as_u16 (q * u16MAX)⟩ - q|
      < 1 / 65535 := by
  constructor
  · unfold HashTable.get HashTable.fetch HashTable.push
    dsimp only
    rw [if_pos rfl, if_pos rfl]
  · unfold HashEntry.qVal rust_f32_as_u16
    dsimp only
    have hcast : ((u16MAX : ℕ) : ℚ) = 65535 := by norm_num [u16MAX]
    rw [hcast]
    by_cases hx : q * (65535 : ℚ) ≤ 0
    · have hq : q = 0 := le_antisymm (by linarith) hq0
      subst hq
      rw [if_pos hx]
      norm_num
    · rw [if_neg hx]
      push_neg at hx
      have hfl0 : 0 ≤ ⌊q * (65535 : ℚ)⌋ := Int.floor_nonneg.mpr (le_of_lt hx)
      have hub : q * (65535 : ℚ) ≤ 65535 := by nlinarith
      have hfl_le : ⌊q * (65535 : ℚ)⌋ ≤ 65535 := by
        calc ⌊q * (65535 : ℚ)⌋ ≤ ⌊(65535 : ℚ)⌋ := Int.floor_le_floor hub
          _ = 65535 := by norm_num
      have hmin : min (Int.toNat ⌊q * (65535 : ℚ)⌋) u16MAX
          = Int.toNat ⌊q * (65535 : ℚ)⌋ := by
        apply min_eq_left
        unfold u16MAX
        omega
      rw [hmin]
      have hcast2 : ((Int.toNat ⌊q * (65535 : ℚ)⌋ : ℕ) : ℚ)
          = (⌊q * (65535 : ℚ)⌋ : ℚ) := by
        have := Int.toNat_of_nonneg hfl0
        exact_mod_cast congrArg (fun z : ℤ => (z : ℚ)) this
      rw [hcast2]
      have hle : (⌊q * (65535 : ℚ)⌋ : ℚ) ≤ q * 65535 := Int.floor_le _
      have hgt : q * (65535 : ℚ) < (⌊q * (65535 : ℚ)⌋ : ℚ) + 1 :=
        Int.lt_floor_add_one _
      rw [abs_sub_comm, abs_of_nonneg (by linarith)]
      linarith

/-- C3 witness: the amended statement at a size-1 table, hash 0,
q = 1/2. -/
theorem hashtable_round_trip_witness :
    ((HashTable.empty 1).push 0 (1/2)).get 0 =
      some ⟨HashTable.key 0, rust_f32_as_u16 ((1/2 : ℚ) * u16MAX)⟩ ∧
    |HashEntry.qVal ⟨HashTable.key 0, rust_f32_as_u16 ((1/2 : ℚ) * u16MAX)⟩ - 1/2|
      < 1 / 65535 :=
  hashtable_round_trip (HashTable.empty 1) 0 (1/2)
    (by norm_num [HashTable.empty]) (by norm_num) (by norm_num)

/-- C3 counterexample: at q = 2/131071 the stored u16 is 0 (the product
q * 65535 = 131070/131071 truncates to 0), so the decoded q is 0 and the
round-trip error 2/131071 exceeds 2^-16 = 1/65536, refuting the claimed
bound. -/
theorem hashtable_round_trip_bound_fails :
    (0 : ℚ) ≤ 2/131071 ∧ (2/131071 : ℚ) ≤ 1 ∧
    ((HashTable.empty 1).push 0 (2/131071)).get 0 = some ⟨0, 0⟩ ∧
    ¬(|HashEntry.qVal ⟨0, 0⟩ - 2/131071| ≤ 1 / 65536) := by
  have hval : rust_f32_as_u16 ((2/131071 : ℚ) * u16MAX) = 0 := by
    unfold rust_f32_as_u16 u16MAX
    rw [if_neg (by norm_num)]
    norm_num
  refine ⟨by norm_num, by norm_num, ?_, ?_⟩
  · unfold HashTable.get HashTable.fetch HashTable.push HashTable.empty
    dsimp only
    simp only [hval]
    decide
  · rw [HashEntry.qVal]
    norm_num [u16MAX, abs_sub_comm]
    rw [abs_of_nonneg (by norm_num)]
    norm_num

/-- C4 (amended): pushing h1 leaves every other slot untouched: whenever
h1 and h2 map to different slots (h1 mod size differs from h2 mod size),
get(h2) after push(h1, q) is exactly get(h2) before the push, so the entry
stored for h1 is not returned for h2. When the two hashes share BOTH the
slot index and the 16-bit signature, the code does return h1's entry for
h2 (see the counterexample), so the slot-disjointness hypothesis is
necessary. -/
theorem hashtable_push_frame (t : HashTable) (h1 h2 : ℕ) (q : ℚ)
    (hslot : h1 % t.size ≠ h2 % t.size) :
    (t.push h1 q).get h2 = t.get h2 := by
  have hcond : ¬(h2 % t.size = h1 % t.size) := fun hh => hslot hh.symm
  unfold HashTable.get HashTable.fetch HashTable.push
  dsimp only
  simp only [if_neg hcond]

/-- C4 witness: a size-2 table with h1 = 0, h2 = 1 (different slots). -/
theorem hashtable_push_frame_witness :
    ((HashTable.empty 2).push 0 1).get 1 = (HashTable.empty 2).get 1 :=
  hashtable_push_frame (HashTable.empty 2) 0 1 1 (by decide)

/-- C4 counterexample: h1 = 0 and h2 = 2 are distinct 64-bit hashes with
the same signature (both have upper 16 bits 0) and, in a size-2 table, the
same slot 0; after push(h1, 1), get(h2) returns exactly the entry that was
stored for h1, refuting the claim as stated. -/
theorem hashtable_collision_returns_other_q :
    (0 : ℕ) ≠ 2 ∧ HashTable.key 0 = HashTable.key 2 ∧
    ((HashTable.empty 2).push 0 1).get 2 =
      some ⟨HashTable.key 0, rust_f32_as_u16 ((1 : ℚ) * u16MAX)⟩ ∧
    ((HashTable.empty 2).push 0 1).get 2 = ((HashTable.empty 2).push 0 1).get 0 := by
  have hval : rust_f32_as_u16 ((1 : ℚ) * u16MAX) = 65535 := by
    unfold rust_f32_as_u16 u16MAX
    rw [if_neg (by norm_num)]
    norm_num
    decide
  refine ⟨by norm_num, by decide, ?_, ?_⟩
  · unfold HashTable.get HashTable.fetch HashTable.push HashTable.empty
    dsimp only
    simp only [hval]
    decide
  · unfold HashTable.get HashTable.fetch HashTable.push HashTable.empty
    dsimp only
    simp only [hval]
    decide

end Monty
